import Mathlib

/-
Verification development for the array-construction core (ctors.c) of an
N-dimensional strided array library.  The C source is shallowly embedded:
machine pointers and byte offsets become integers, raw memory becomes a
total function from byte addresses to byte values, `npy_intp` quantities
become integers with the platform bound INTPTR_MAX = 2^63 - 1 made
explicit, and fallible routines return `Except`.
-/

set_option maxHeartbeats 1000000

namespace Ctors

/-- Python exception classes used by the error paths of ctors.c. -/
inductive PyExc where
  | ValueError
  | OverflowError
  | TypeError
  | MemoryError
  | RuntimeError
deriving DecidableEq, Repr

/-- An error raised through the CPython error machinery: class plus message. -/
structure PyError where
  exc : PyExc
  msg : String
deriving DecidableEq, Repr

/-- NPY_MAX_INTP on a 64-bit platform (INTPTR_MAX = 2^63 - 1). -/
def NPY_MAX_INTP : ℤ := 2 ^ 63 - 1

/-- NPY_MIN_INTP on a 64-bit platform. -/
def NPY_MIN_INTP : ℤ := -(2 ^ 63)

/- ### Separator normalisation (swab_separator, ctors.c lines 60-97) -/

/-- C `isspace` in the C locale: space, tab, newline, vertical tab,
form feed, carriage return. -/
def isspace_c (c : Char) : Bool :=
  c = ' ' || c = '\t' || c = '\n' || c = '\x0b' || c = '\x0c' || c = '\r'

/-- The main loop of `swab_separator`: copy the separator while collapsing
each run of whitespace to a single space (the `skip_space` flag is true
while inside a whitespace run). -/
def swabLoop : List Char → Bool → List Char
  | [], _ => []
  | c :: rest, skipSpace =>
    if isspace_c c then
      if skipSpace then swabLoop rest true
      else ' ' :: swabLoop rest true
    else c :: swabLoop rest false

/-- Model of `swab_separator` (ctors.c:60-97): prepends a space when the separator is
nonempty and does not start with whitespace, collapses internal whitespace
runs, and then runs the final `if (s != start && s[-1] == ' ')` test, which
appends one more space exactly when the output so far is nonempty and
already ends in a space. -/
def swab_separator (sep : List Char) : List Char :=
  let body := swabLoop sep false
  let withFront :=
    match sep with
    | [] => body
    | c :: _ => if isspace_c c then body else ' ' :: body
  if withFront.getLast? = some ' ' then withFront ++ [' '] else withFront

/- ### Raw memory model shared by the copy primitives -/

/-- Byte-addressed memory: a total function from addresses to byte values. -/
def Mem : Type := ℤ → ℤ

/-- Semantics of `memcpy(d, s, n)` on byte-addressed memory; every source byte is read
from the pre-state (the C routine is only applied to non-overlapping
element regions). -/
def memcpy1 (mem : Mem) (d s : ℤ) (n : ℕ) : Mem :=
  fun a => if d ≤ a ∧ a < d + n then mem (s + (a - d)) else mem a

/-- Reverse the `size` bytes of the single item starting at address `p`
(the per-item effect of `_strided_byte_swap`, ctors.c:417-458). -/
def revBytes (mem : Mem) (p : ℤ) (size : ℕ) : Mem :=
  fun a => if p ≤ a ∧ a < p + size then mem (p + (size - 1 : ℤ) - (a - p)) else mem a

/-- Model of `byte_swap_vector(p, n, size)` (ctors.c:460-465): byte-swap `n`
contiguous items of width `size` starting at `p`. -/
def byte_swap_vector (mem : Mem) (p : ℤ) (n : ℕ) (size : ℕ) : Mem :=
  match n with
  | 0 => mem
  | n + 1 => byte_swap_vector (revBytes mem p size) (p + size) n size

/- ### copy_and_swap (ctors.c:467-491) -/

/-- The strided gather loop of `copy_and_swap`: copy `n` items of width
`itemsize` from `s` (stepping by `srcstride`) to `d` (stepping by
`itemsize`), returning the final memory together with the final value of
the destination cursor `d1`. -/
def gatherLoop (mem : Mem) (d s : ℤ) (itemsize : ℕ) (srcstride : ℤ) : ℕ → Mem × ℤ
  | 0 => (mem, d)
  | n + 1 => gatherLoop (memcpy1 mem d s itemsize) (d + itemsize) (s + srcstride) itemsize srcstride n

/-- Model of `copy_and_swap(dst, src, itemsize, numitems, srcstrides, swap)`
(ctors.c:467-491).  In the contiguous fast path the local cursor `d1`
still equals `dst` when `byte_swap_vector(d1, ...)` runs; in the strided
loop path `d1` has been advanced past the copied block. -/
def copy_and_swap (mem : Mem) (dst src : ℤ) (itemsize : ℕ) (numitems : ℕ)
    (srcstrides : ℤ) (swap : Bool) : Mem :=
  let st :=
    if numitems = 1 ∨ (itemsize : ℤ) = srcstrides then
      (memcpy1 mem dst src (itemsize * numitems), dst)
    else
      gatherLoop mem dst src itemsize srcstrides numitems
  if swap then byte_swap_vector st.1 st.2 numitems itemsize else st.1

/-- Read `n` consecutive bytes starting at address `p`. -/
def readBytes (mem : Mem) (p : ℤ) (n : ℕ) : List ℤ :=
  (List.range n).map (fun (i : ℕ) => mem (p + (i : ℤ)))

/-- Memory whose byte at address `a` holds the value `a`. -/
def memAddr : Mem := fun a => a

/- ### Theorems for C8 and C9 -/

/-- C8: the separator normaliser must begin AND end with a space wildcard
when the original separator neither begins nor ends with whitespace.  On
input "," the code produces " ," — the leading space is added but the
trailing one is not, because the final test `s[-1] == ' '` appends the
extra space exactly when the cleaned separator already ends in a space
(yielding a double trailing space for ", "), the opposite of its own
comment "add space to end if there isn't one". -/
theorem swab_separator_trailing_space_misbehaviour :
    swab_separator [','] = [' ', ','] ∧
    (swab_separator [',']).getLast? ≠ some ' ' ∧
    swab_separator [',', ' '] = [' ', ',', ' ', ' '] := by
  decide

/-- C9: `copy_and_swap` with swap requested must be equivalent to the
strided gather into `dst` followed by a byte-swap of `dst` in place.  In
the strided loop path (numitems = 2, itemsize = 2, srcstrides = 4) the
code instead leaves the gathered destination bytes `[0,1,4,5]` unswapped
and byte-reverses the four bytes at `dst+4..dst+7`, past the copied
block, because the swap is applied at the advanced cursor `d1`.  The
contiguous fast path (itemsize = srcstrides) swaps the destination as
claimed. -/
theorem copy_and_swap_strided_swaps_wrong_region :
    readBytes (copy_and_swap memAddr 100 0 2 2 4 true) 100 4 = [0, 1, 4, 5] ∧
    readBytes (copy_and_swap memAddr 100 0 2 2 4 true) 104 4 = [105, 104, 107, 106] ∧
    readBytes (copy_and_swap memAddr 100 0 2 2 2 true) 100 4 = [1, 0, 3, 2] := by
  decide

/- ### N-dimensional arrays: memory extents and overlap
     (_get_memory_extents ctors.c:576-608, _arrays_overlap ctors.c:611-619,
      PyArray_MoveInto dispatch ctors.c:637-674) -/

/-- The layout data of a strided array that the extent/overlap/move code
reads: data pointer (as a byte address), per-axis extents and byte
strides, and the element size. -/
structure NArr where
  data : ℤ
  dims : List ℤ
  strides : List ℤ
  elsize : ℕ
deriving DecidableEq, Repr

/-- The per-axis loop of `_get_memory_extents`: starting from the closed
range `[start, stop]` (both at the data pointer), expand `stop` upward for
a positive stride and `start` downward for a negative one; any axis with
extent 0 returns the empty range `[dataPtr, dataPtr)` at once; at the end
the closed range is turned into a half-open one by adding `elsize`. -/
def extentsLoop (dataPtr : ℤ) (elsize : ℕ) :
    List (ℤ × ℤ) → ℤ → ℤ → ℤ × ℤ
  | [], start, stop => (start, stop + elsize)
  | (dim, stride) :: rest, start, stop =>
    if dim = 0 then (dataPtr, dataPtr)
    else if 0 < stride then extentsLoop dataPtr elsize rest start (stop + stride * (dim - 1))
    else if stride < 0 then extentsLoop dataPtr elsize rest (start + stride * (dim - 1)) stop
    else extentsLoop dataPtr elsize rest start stop

/-- Model of `_get_memory_extents(arr)` (ctors.c:576-608): the half-open byte range
`[start, end)` containing the array data. -/
def _get_memory_extents (arr : NArr) : ℤ × ℤ :=
  extentsLoop arr.data arr.elsize (arr.dims.zip arr.strides) arr.data arr.data

/-- Model of `_arrays_overlap(arr1, arr2)` (ctors.c:611-619):
`(start1 < end2) && (start2 < end1)`. -/
def _arrays_overlap (arr1 arr2 : NArr) : Bool :=
  let e1 := _get_memory_extents arr1
  let e2 := _get_memory_extents arr2
  decide (e1.1 < e2.2) && decide (e2.1 < e1.2)

/-- The branch condition of `PyArray_MoveInto` (ctors.c:640-644): true
exactly when the move delegates directly to `PyArray_CopyInto`, false when
it goes through the temporary array. -/
def PyArray_MoveInto_usesDirect (dst src : NArr) : Bool :=
  (decide (dst.dims.length = 1) && decide (src.dims.length = 1) &&
    decide (0 < dst.strides.getD 0 0) && decide (0 < src.strides.getD 0 0)) ||
  !(_arrays_overlap dst src)

/- ### 1-D copy/move semantics (PyArray_CopyInto trivial pair path
     ctors.c:2482-2530, PyArray_MoveInto ctors.c:637-674) -/

/-- A 1-dimensional strided view: data offset, element count, byte stride,
element size. -/
structure Arr1 where
  off : ℤ
  len : ℕ
  stride : ℤ
  elsize : ℕ
deriving DecidableEq, Repr

/-- The layout record of a 1-D view, as seen by the extent/overlap code. -/
def Arr1.toN (a : Arr1) : NArr :=
  ⟨a.off, [(a.len : ℤ)], [a.stride], a.elsize⟩

/-- Modelled from the spec: the strided transfer function returned by the
external transfer-function selector for two identical descriptors copies
one element of `es` bytes per step, in index order `0, 1, ..., n-1`,
stepping the destination by `ds` and the source by `ss` bytes. -/
def stransfer (mem : Mem) (d s ds ss : ℤ) (es : ℕ) : ℕ → Mem
  | 0 => mem
  | n + 1 => memcpy1 (stransfer mem d s ds ss es n) (d + ds * n) (s + ss * n) es

/-- Model of `PyArray_CopyInto` restricted to a trivially iterable 1-D pair of
equal length and a same-size descriptor pair (ctors.c:2448-2530): the
zero-size checks, then the positive-stride overlap test that reverses the
element order of the single transfer when it fires. -/
def PyArray_CopyInto_1d (mem : Mem) (dst src : Arr1) : Except PyError Mem :=
  if src.len = 0 then
    if dst.len = 0 then .ok mem
    else .error ⟨.ValueError, "cannot copy from zero-sized array"⟩
  else if dst.len = 0 then
    .error ⟨.ValueError, "cannot copy to zero-sized array"⟩
  else
    let count := dst.len
    if src.off < dst.off ∧ 0 < src.stride ∧ 0 < dst.stride ∧
        dst.off < src.off + src.stride * count ∧ src.off < dst.off + dst.stride * count then
      .ok (stransfer mem (dst.off + dst.stride * ((count : ℤ) - 1))
            (src.off + src.stride * ((count : ℤ) - 1))
            (-dst.stride) (-src.stride) src.elsize count)
    else
      .ok (stransfer mem dst.off src.off dst.stride src.stride src.elsize count)

/-- Model of `PyArray_MoveInto` on a 1-D pair (ctors.c:637-674).  `tmpOff` is the
address handed out by the allocator for the temporary array, which is
shaped like `dst` (same length, contiguous positive strides). -/
def PyArray_MoveInto_1d (mem : Mem) (dst src : Arr1) (tmpOff : ℤ) : Except PyError Mem :=
  if PyArray_MoveInto_usesDirect dst.toN src.toN then
    PyArray_CopyInto_1d mem dst src
  else
    let tmp : Arr1 := ⟨tmpOff, dst.len, (dst.elsize : ℤ), dst.elsize⟩
    match PyArray_CopyInto_1d mem tmp src with
    | .error e => .error e
    | .ok m1 => PyArray_CopyInto_1d m1 dst tmp

/-- The element values of a 1-D view: a list of `len` elements, each the
list of its `elsize` bytes. -/
def readArr (mem : Mem) (a : Arr1) : List (List ℤ) :=
  (List.range a.len).map (fun (i : ℕ) =>
    (List.range a.elsize).map (fun (b : ℕ) => mem (a.off + a.stride * (i : ℤ) + (b : ℤ))))

/-- Membership of address `a` in the `es`-byte block starting at `p`. -/
def inBlk (p : ℤ) (es : ℕ) (a : ℤ) : Prop := p ≤ a ∧ a < p + es

instance (p : ℤ) (es : ℕ) (a : ℤ) : Decidable (inBlk p es a) := by
  unfold inBlk; infer_instance

/-- The byte block of element `i` of a 1-D view. -/
def Arr1.blk (ar : Arr1) (i : ℕ) (a : ℤ) : Prop :=
  inBlk (ar.off + ar.stride * i) ar.elsize a

/-- Frame property of the strided transfer: an address inside none of the
destination element blocks is untouched. -/
theorem stransfer_frame (mem : Mem) (d s ds ss : ℤ) (es : ℕ) (n : ℕ) (a : ℤ)
    (h : ∀ i : ℕ, i < n → ¬ inBlk (d + ds * i) es a) :
    stransfer mem d s ds ss es n a = mem a := by
  induction n with
  | zero => rfl
  | succ m ih =>
    have hm : ¬ inBlk (d + ds * m) es a := h m (Nat.lt_succ_self m)
    have hrest : ∀ i : ℕ, i < m → ¬ inBlk (d + ds * i) es a := fun i hi =>
      h i (Nat.lt_succ_of_lt hi)
    simp only [stransfer, memcpy1]
    rw [if_neg (by simpa [inBlk] using hm)]
    exact ih hrest

/-- Gather property of the strided transfer: when the destination element
blocks are pairwise disjoint and no destination block meets a source
block, element `i` of the destination ends up holding the bytes that
element `i` of the source held in the pre-state. -/
theorem stransfer_gather (mem : Mem) (d s ds ss : ℤ) (es : ℕ) (n : ℕ)
    (hdisj : ∀ i j : ℕ, i < n → j < n → i ≠ j →
      ∀ a : ℤ, inBlk (d + ds * i) es a → ¬ inBlk (d + ds * j) es a)
    (hrw : ∀ i j : ℕ, i < n → j < n →
      ∀ a : ℤ, inBlk (d + ds * i) es a → ¬ inBlk (s + ss * j) es a)
    (i : ℕ) (hi : i < n) (b : ℕ) (hb : b < es) :
    stransfer mem d s ds ss es n (d + ds * i + b) = mem (s + ss * i + b) := by
  induction n with
  | zero => omega
  | succ m ih =>
    have hblk : inBlk (d + ds * i) es (d + ds * i + b) := by
      constructor
      · omega
      · have : (b : ℤ) < (es : ℤ) := by exact_mod_cast hb
        omega
    rcases Nat.lt_succ_iff_lt_or_eq.mp hi with hlt | heq
    · -- element i is handled by an earlier iteration; iteration m does not touch it
      have hnot : ¬ inBlk (d + ds * m) es (d + ds * i + b) :=
        hdisj i m hi (Nat.lt_succ_self m) (Nat.ne_of_lt hlt) _ hblk
      simp only [stransfer, memcpy1]
      rw [if_neg (by simpa [inBlk] using hnot)]
      exact ih
        (fun i' j' hi' hj' hne => hdisj i' j' (Nat.lt_succ_of_lt hi') (Nat.lt_succ_of_lt hj') hne)
        (fun i' j' hi' hj' => hrw i' j' (Nat.lt_succ_of_lt hi') (Nat.lt_succ_of_lt hj'))
        hlt
    · -- element i = m is written by the last iteration, reading a source
      -- address that no earlier write has touched
      subst heq
      simp only [stransfer, memcpy1]
      rw [if_pos (by simpa [inBlk] using hblk)]
      have harith : s + ss * i + (d + ds * i + b - (d + ds * i)) = s + ss * i + b := by ring
      rw [harith]
      have hsrc : inBlk (s + ss * i) es (s + ss * i + b) := by
        constructor
        · omega
        · have : (b : ℤ) < (es : ℤ) := by exact_mod_cast hb
          omega
      refine stransfer_frame mem d s ds ss es i _ ?_
      intro k hk hkblk
      exact hrw k i (Nat.lt_succ_of_lt hk) (Nat.lt_succ_self i) _ hkblk hsrc

/-- Two memories that agree on every byte of a view give the same element
read-back. -/
theorem readArr_congr (m1 m2 : Mem) (ar : Arr1)
    (h : ∀ i : ℕ, i < ar.len → ∀ b : ℕ, b < ar.elsize →
      m1 (ar.off + ar.stride * i + b) = m2 (ar.off + ar.stride * i + b)) :
    readArr m1 ar = readArr m2 ar := by
  unfold readArr
  refine List.map_congr_left ?_
  intro i hi
  refine List.map_congr_left ?_
  intro b hb
  exact h i (List.mem_range.mp hi) b (List.mem_range.mp hb)

/-- The base pointer of the reversed traversal: for `k < n`, stepping `k`
elements backwards from the last element lands on element `n-1-k`. -/
theorem rev_ptr_eq (off st : ℤ) (n k : ℕ) (hk : k < n) :
    off + st * ((n : ℤ) - 1) + -st * (k : ℤ) = off + st * ((n - 1 - k : ℕ) : ℤ) := by
  have hc : ((n - 1 - k : ℕ) : ℤ) = (n : ℤ) - 1 - (k : ℤ) := by omega
  rw [hc]; ring

/-- Correctness of the 1-D `PyArray_CopyInto` path: when the destination
element blocks are pairwise disjoint and disjoint from every source
element block, the copy succeeds (in either traversal direction), the
destination reads back as the source's original elements, and every byte
outside the destination blocks is untouched. -/
theorem copyInto1d_correct (mem : Mem) (dst src : Arr1)
    (hlen : dst.len = src.len) (hes : dst.elsize = src.elsize)
    (hdd : ∀ i j : ℕ, i < dst.len → j < dst.len → i ≠ j →
      ∀ a : ℤ, dst.blk i a → ¬ dst.blk j a)
    (hds : ∀ i j : ℕ, i < dst.len → j < src.len →
      ∀ a : ℤ, dst.blk i a → ¬ src.blk j a) :
    ∃ m', PyArray_CopyInto_1d mem dst src = .ok m' ∧
      readArr m' dst = readArr mem src ∧
      (∀ a : ℤ, (∀ i : ℕ, i < dst.len → ¬ dst.blk i a) → m' a = mem a) := by
  by_cases h0 : src.len = 0
  · have hd0 : dst.len = 0 := by omega
    refine ⟨mem, ?_, ?_, ?_⟩
    · simp [PyArray_CopyInto_1d, h0, hd0]
    · simp [readArr, h0, hd0]
    · intro a _; rfl
  · have hd0 : ¬ dst.len = 0 := by omega
    unfold PyArray_CopyInto_1d
    rw [if_neg h0, if_neg hd0]
    set n := dst.len with hn
    by_cases hrev : src.off < dst.off ∧ 0 < src.stride ∧ 0 < dst.stride ∧
        dst.off < src.off + src.stride * (n : ℤ) ∧ src.off < dst.off + dst.stride * (n : ℤ)
    · -- reversed traversal
      rw [if_pos hrev]
      set d0 := dst.off + dst.stride * ((n : ℤ) - 1) with hd0def
      set s0 := src.off + src.stride * ((n : ℤ) - 1) with hs0def
      have hdblk : ∀ k : ℕ, k < n → ∀ a : ℤ,
          inBlk (d0 + -dst.stride * (k : ℤ)) src.elsize a ↔ dst.blk (n - 1 - k) a := by
        intro k hk a
        rw [hd0def, rev_ptr_eq dst.off dst.stride n k hk]
        unfold Arr1.blk
        rw [hes]
      have hsblk : ∀ k : ℕ, k < n → ∀ a : ℤ,
          inBlk (s0 + -src.stride * (k : ℤ)) src.elsize a ↔ src.blk (n - 1 - k) a := by
        intro k hk a
        rw [hs0def, rev_ptr_eq src.off src.stride n k hk]
        unfold Arr1.blk
        rfl
      have hdisj : ∀ i j : ℕ, i < n → j < n → i ≠ j → ∀ a : ℤ,
          inBlk (d0 + -dst.stride * (i : ℤ)) src.elsize a →
          ¬ inBlk (d0 + -dst.stride * (j : ℤ)) src.elsize a := by
        intro i j hi hj hne a ha
        rw [hdblk i hi a] at ha
        rw [hdblk j hj a]
        exact hdd (n - 1 - i) (n - 1 - j) (by omega) (by omega) (by omega) a ha
      have hrw : ∀ i j : ℕ, i < n → j < n → ∀ a : ℤ,
          inBlk (d0 + -dst.stride * (i : ℤ)) src.elsize a →
          ¬ inBlk (s0 + -src.stride * (j : ℤ)) src.elsize a := by
        intro i j hi hj a ha
        rw [hdblk i hi a] at ha
        rw [hsblk j hj a]
        exact hds (n - 1 - i) (n - 1 - j) (by omega) (by omega) a ha
      refine ⟨_, rfl, ?_, ?_⟩
      · unfold readArr
        conv_rhs => rw [← hlen, ← hes]
        refine List.map_congr_left ?_
        intro i hi
        refine List.map_congr_left ?_
        intro b hb
        replace hi := List.mem_range.mp hi
        replace hb := List.mem_range.mp hb
        have hk : n - 1 - i < n := by omega
        have hptr : dst.off + dst.stride * (i : ℤ) + (b : ℤ) =
            d0 + -dst.stride * ((n - 1 - i : ℕ) : ℤ) + (b : ℤ) := by
          rw [hd0def, rev_ptr_eq dst.off dst.stride n (n - 1 - i) hk]
          have hii : n - 1 - (n - 1 - i) = i := by omega
          rw [hii]
        rw [hptr]
        rw [stransfer_gather mem d0 s0 (-dst.stride) (-src.stride) src.elsize n
          hdisj hrw (n - 1 - i) hk b (by omega)]
        have hptr2 : s0 + -src.stride * ((n - 1 - i : ℕ) : ℤ) + (b : ℤ) =
            src.off + src.stride * (i : ℤ) + (b : ℤ) := by
          rw [hs0def, rev_ptr_eq src.off src.stride n (n - 1 - i) hk]
          have hii : n - 1 - (n - 1 - i) = i := by omega
          rw [hii]
        rw [hptr2]
      · intro a ha
        refine stransfer_frame mem d0 s0 (-dst.stride) (-src.stride) src.elsize n a ?_
        intro k hk hka
        rw [hdblk k hk a] at hka
        exact ha (n - 1 - k) (by omega) hka
    · -- forward traversal
      rw [if_neg hrev]
      have hdisj : ∀ i j : ℕ, i < n → j < n → i ≠ j → ∀ a : ℤ,
          inBlk (dst.off + dst.stride * (i : ℤ)) src.elsize a →
          ¬ inBlk (dst.off + dst.stride * (j : ℤ)) src.elsize a := by
        intro i j hi hj hne a ha
        rw [show src.elsize = dst.elsize from hes.symm] at ha ⊢
        exact hdd i j hi hj hne a ha
      have hrw2 : ∀ i j : ℕ, i < n → j < n → ∀ a : ℤ,
          inBlk (dst.off + dst.stride * (i : ℤ)) src.elsize a →
          ¬ inBlk (src.off + src.stride * (j : ℤ)) src.elsize a := by
        intro i j hi hj a ha
        rw [show src.elsize = dst.elsize from hes.symm] at ha
        exact hds i j hi (by omega) a ha
      refine ⟨_, rfl, ?_, ?_⟩
      · unfold readArr
        conv_rhs => rw [← hlen, ← hes]
        refine List.map_congr_left ?_
        intro i hi
        refine List.map_congr_left ?_
        intro b hb
        replace hi := List.mem_range.mp hi
        replace hb := List.mem_range.mp hb
        exact stransfer_gather mem dst.off src.off dst.stride src.stride src.elsize n
          hdisj hrw2 i hi b (by omega)
      · intro a ha
        refine stransfer_frame mem dst.off src.off dst.stride src.stride src.elsize n a ?_
        intro k hk hka
        rw [show src.elsize = dst.elsize from hes.symm] at hka
        exact ha k hk hka

/-- The element blocks of a fresh contiguous view (stride = element size)
are pairwise disjoint. -/
theorem contiguous_blocks_disjoint (tmpOff : ℤ) (n es : ℕ)
    (i j : ℕ) (hne : i ≠ j) (a : ℤ)
    (hi : Arr1.blk ⟨tmpOff, n, (es : ℤ), es⟩ i a) :
    ¬ Arr1.blk ⟨tmpOff, n, (es : ℤ), es⟩ j a := by
  intro hj
  unfold Arr1.blk inBlk at hi hj
  simp only at hi hj
  rcases Nat.lt_or_ge i j with hij | hij
  · have h1 : (es : ℤ) * i + es ≤ (es : ℤ) * j := by
      have : (i : ℤ) + 1 ≤ (j : ℤ) := by exact_mod_cast hij
      nlinarith [Int.ofNat_nonneg es]
    omega
  · have hij2 : j < i := by omega
    have h1 : (es : ℤ) * j + es ≤ (es : ℤ) * i := by
      have : (j : ℤ) + 1 ≤ (i : ℤ) := by exact_mod_cast hij2
      nlinarith [Int.ofNat_nonneg es]
    omega

/-- Every element block of a fresh contiguous view of `n` elements lies
inside its `n * es` byte allocation. -/
theorem contiguous_block_in_region (tmpOff : ℤ) (n es : ℕ)
    (i : ℕ) (hi : i < n) (a : ℤ)
    (h : Arr1.blk ⟨tmpOff, n, (es : ℤ), es⟩ i a) :
    inBlk tmpOff (n * es) a := by
  unfold Arr1.blk at h
  unfold inBlk at h ⊢
  simp only at h
  have h1 : (0 : ℤ) ≤ (es : ℤ) * i := by positivity
  have h2 : (es : ℤ) * i + es ≤ (n : ℤ) * es := by
    have : (i : ℤ) + 1 ≤ (n : ℤ) := by exact_mod_cast hi
    nlinarith [Int.ofNat_nonneg es]
  constructor
  · omega
  · have hcast : ((n * es : ℕ) : ℤ) = (n : ℤ) * es := by push_cast; ring
    omega

/-- Correctness of the temporary-copy path of `PyArray_MoveInto`: when the
direct branch is not taken, the destination's element blocks are pairwise
disjoint, and the allocator returns a temporary block disjoint from both
views, the move succeeds and the destination reads back as the source's
original elements — i.e. the materialize-then-write semantics. -/
theorem moveInto1d_temp_correct (mem : Mem) (dst src : Arr1) (tmpOff : ℤ)
    (hlen : dst.len = src.len) (hes : dst.elsize = src.elsize)
    (hnd : PyArray_MoveInto_usesDirect dst.toN src.toN = false)
    (hdd : ∀ i j : ℕ, i < dst.len → j < dst.len → i ≠ j →
      ∀ a : ℤ, dst.blk i a → ¬ dst.blk j a)
    (htmp : ∀ a : ℤ, inBlk tmpOff (dst.len * dst.elsize) a →
      (∀ i : ℕ, i < dst.len → ¬ dst.blk i a) ∧ (∀ i : ℕ, i < src.len → ¬ src.blk i a)) :
    ∃ m', PyArray_MoveInto_1d mem dst src tmpOff = .ok m' ∧
      readArr m' dst = readArr mem src := by
  have htmparr : (⟨tmpOff, dst.len, (dst.elsize : ℤ), dst.elsize⟩ : Arr1) =
      ⟨tmpOff, dst.len, (dst.elsize : ℤ), dst.elsize⟩ := rfl
  obtain ⟨m1, hm1, hread1, _hframe1⟩ :=
    copyInto1d_correct mem ⟨tmpOff, dst.len, (dst.elsize : ℤ), dst.elsize⟩ src
      hlen hes
      (fun i j hi hj hne a ha => contiguous_blocks_disjoint tmpOff dst.len dst.elsize i j hne a ha)
      (fun i j hi hj a ha =>
        (htmp a (contiguous_block_in_region tmpOff dst.len dst.elsize i hi a ha)).2 j hj)
  obtain ⟨m2, hm2, hread2, _hframe2⟩ :=
    copyInto1d_correct m1 dst ⟨tmpOff, dst.len, (dst.elsize : ℤ), dst.elsize⟩
      rfl rfl hdd
      (fun i j hi hj a ha => by
        intro hblk
        exact (htmp a (contiguous_block_in_region tmpOff dst.len dst.elsize j hj a hblk)).1
          i hi ha)
  refine ⟨m2, ?_, ?_⟩
  · unfold PyArray_MoveInto_1d
    rw [hnd]
    simp only [Bool.false_eq_true, if_false]
    rw [hm1]
    exact hm2
  · rw [hread2, hread1]

/-- The early return of `_get_memory_extents`: any axis of extent 0 makes
the whole loop return the empty range at the data pointer, regardless of
the other axes. -/
theorem extentsLoop_zero_dim (dims strides : List ℤ) (dataPtr start stop : ℤ) (es : ℕ)
    (hlen : dims.length = strides.length) (h0 : (0 : ℤ) ∈ dims) :
    extentsLoop dataPtr es (dims.zip strides) start stop = (dataPtr, dataPtr) := by
  induction dims generalizing strides start stop with
  | nil => simp at h0
  | cons d ds ih =>
    match strides with
    | [] => simp at hlen
    | st :: ss =>
      by_cases hd : d = 0
      · simp [extentsLoop, hd]
      · have h0' : (0 : ℤ) ∈ ds := by
          rcases List.mem_cons.mp h0 with h | h
          · exact absurd h.symm hd
          · exact h
        have hlen' : ds.length = ss.length := by simpa using hlen
        simp only [List.zip_cons_cons, extentsLoop, if_neg hd]
        by_cases hpos : 0 < st
        · rw [if_pos hpos]; exact ih _ _ _ hlen' h0'
        · rw [if_neg hpos]
          by_cases hneg : st < 0
          · rw [if_pos hneg]; exact ih _ _ _ hlen' h0'
          · rw [if_neg hneg]; exact ih _ _ _ hlen' h0'

/-- Buffer holding the bytes 0, 1, 2 at addresses 0, 1, 2. -/
def mem012 : Mem := fun a => if a = 0 then 0 else if a = 1 then 1 else if a = 2 then 2 else 99

/- ### Claim theorems: C1 and C10 -/

/-- C1 (amended): `PyArray_MoveInto` delegates directly to `PyArray_CopyInto`
exactly when both operands are 1-dimensional with positive strides or the
computed memory extents do not overlap; otherwise it copies through a
freshly allocated temporary shaped like the destination, and on that path
the final destination contents equal those obtained by first materializing
the source into independent memory and then writing it to the destination
(hypotheses: matching lengths and element sizes, pairwise disjoint
destination elements, temporary block disjoint from both views).  The
in-place reversal of the buffer `[0,1,2]` through a negative-stride view
takes that path and yields `[2,1,0]`.  (The direct path does NOT provide
the materialize-then-write guarantee for every overlapping pair; see the
counterexample.) -/
theorem move_into_dispatch_and_temp_path :
    (∀ dst src : NArr, PyArray_MoveInto_usesDirect dst src = true ↔
      ((dst.dims.length = 1 ∧ src.dims.length = 1 ∧
        0 < dst.strides.getD 0 0 ∧ 0 < src.strides.getD 0 0) ∨
        _arrays_overlap dst src = false)) ∧
    (∀ (mem : Mem) (dst src : Arr1) (tmpOff : ℤ),
      dst.len = src.len → dst.elsize = src.elsize →
      PyArray_MoveInto_usesDirect dst.toN src.toN = false →
      (∀ i j : ℕ, i < dst.len → j < dst.len → i ≠ j →
        ∀ a : ℤ, dst.blk i a → ¬ dst.blk j a) →
      (∀ a : ℤ, inBlk tmpOff (dst.len * dst.elsize) a →
        (∀ i : ℕ, i < dst.len → ¬ dst.blk i a) ∧
        (∀ i : ℕ, i < src.len → ¬ src.blk i a)) →
      ∃ m', PyArray_MoveInto_1d mem dst src tmpOff = .ok m' ∧
        readArr m' dst = readArr mem src) ∧
    (PyArray_MoveInto_1d mem012 ⟨2, 3, -1, 1⟩ ⟨0, 3, 1, 1⟩ 100).map
      (fun m => [m 0, m 1, m 2]) = .ok [2, 1, 0] := by
  refine ⟨?_, ?_, ?_⟩
  · intro dst src
    unfold PyArray_MoveInto_usesDirect
    simp only [Bool.or_eq_true, Bool.and_eq_true, decide_eq_true_eq, Bool.not_eq_true']
    tauto
  · intro mem dst src tmpOff hlen hes hnd hdd htmp
    exact moveInto1d_temp_correct mem dst src tmpOff hlen hes hnd hdd htmp
  · rfl

/-- Witness for the C1 theorem: its temporary-path clause applied to the
claim's own reversal example, with every hypothesis discharged
concretely. -/
theorem move_into_dispatch_and_temp_path_witness :
    ∃ m', PyArray_MoveInto_1d mem012 ⟨2, 3, -1, 1⟩ ⟨0, 3, 1, 1⟩ 100 = .ok m' ∧
      readArr m' ⟨2, 3, -1, 1⟩ = readArr mem012 ⟨0, 3, 1, 1⟩ := by
  refine move_into_dispatch_and_temp_path.2.1 mem012 ⟨2, 3, -1, 1⟩ ⟨0, 3, 1, 1⟩ 100
    rfl rfl (by decide) ?_ ?_
  · intro i j hi hj hne a ha hb
    simp [Arr1.blk, inBlk] at ha hb hi hj
    omega
  · intro a ha
    simp [inBlk] at ha
    constructor
    · intro i hi hblk
      simp [Arr1.blk, inBlk] at hblk hi
      omega
    · intro i hi hblk
      simp [Arr1.blk, inBlk] at hblk hi
      omega

/-- C1 counterexample: both views are 1-dimensional with positive strides
and overlapping extents, so `PyArray_MoveInto` takes the direct path; the
reversed single transfer it runs clobbers source element 1 before reading
it, so the destination reads back `[[0],[6],[6]]` instead of the source's
original contents `[[0],[3],[6]]` that materialize-then-write would
deliver. -/
theorem move_into_direct_overlap_counterexample :
    _arrays_overlap (Arr1.toN ⟨1, 3, 1, 1⟩) (Arr1.toN ⟨0, 3, 3, 1⟩) = true ∧
    PyArray_MoveInto_usesDirect (Arr1.toN ⟨1, 3, 1, 1⟩) (Arr1.toN ⟨0, 3, 3, 1⟩) = true ∧
    (PyArray_MoveInto_1d memAddr ⟨1, 3, 1, 1⟩ ⟨0, 3, 3, 1⟩ 1000).map
      (fun m => readArr m ⟨1, 3, 1, 1⟩) = .ok [[0], [6], [6]] ∧
    readArr memAddr ⟨0, 3, 3, 1⟩ = [[0], [3], [6]] ∧
    ([[0], [6], [6]] : List (List ℤ)) ≠ [[0], [3], [6]] := by
  refine ⟨by decide, by decide, by rfl, by rfl, by decide⟩

/-- C10 (amended): an array with a zero extent gets the empty half-open
extent range `[data, data)`; `_arrays_overlap` between it and any other
array reports overlap exactly when its data pointer lies strictly inside
the other array's half-open extent range, and whenever that is not the
case, `PyArray_MoveInto` (in either operand order) takes the direct
`copy_into` path. -/
theorem zero_size_extents_and_overlap (arr other : NArr)
    (hlen : arr.dims.length = arr.strides.length) (h0 : (0 : ℤ) ∈ arr.dims) :
    _get_memory_extents arr = (arr.data, arr.data) ∧
    (_arrays_overlap arr other = true ↔
      ((_get_memory_extents other).1 < arr.data ∧
        arr.data < (_get_memory_extents other).2)) ∧
    (¬ ((_get_memory_extents other).1 < arr.data ∧
        arr.data < (_get_memory_extents other).2) →
      PyArray_MoveInto_usesDirect arr other = true ∧
      PyArray_MoveInto_usesDirect other arr = true) := by
  have hext : _get_memory_extents arr = (arr.data, arr.data) :=
    extentsLoop_zero_dim arr.dims arr.strides arr.data arr.data arr.data arr.elsize hlen h0
  refine ⟨hext, ?_, ?_⟩
  · unfold _arrays_overlap
    rw [hext]
    simp only [Bool.and_eq_true, decide_eq_true_eq]
    tauto
  · intro hnot
    have hov : _arrays_overlap arr other = false := by
      unfold _arrays_overlap
      rw [hext]
      simp only [Bool.and_eq_false_iff, decide_eq_false_iff_not]
      tauto
    have hov2 : _arrays_overlap other arr = false := by
      unfold _arrays_overlap
      rw [hext]
      simp only [Bool.and_eq_false_iff, decide_eq_false_iff_not]
      tauto
    constructor
    · unfold PyArray_MoveInto_usesDirect
      rw [hov]
      simp
    · unfold PyArray_MoveInto_usesDirect
      rw [hov2]
      simp

/-- Witness for the C10 theorem at a concrete zero-size array. -/
theorem zero_size_extents_and_overlap_witness :
    _get_memory_extents ⟨4, [0], [1], 1⟩ = (4, 4) ∧
    (_arrays_overlap ⟨4, [0], [1], 1⟩ ⟨0, [8], [1], 1⟩ = true ↔
      ((_get_memory_extents ⟨0, [8], [1], 1⟩).1 < 4 ∧
        (4 : ℤ) < (_get_memory_extents ⟨0, [8], [1], 1⟩).2)) := by
  have h := zero_size_extents_and_overlap ⟨4, [0], [1], 1⟩ ⟨0, [8], [1], 1⟩
    (by decide) (by decide)
  exact ⟨h.1, h.2.1⟩

/-- C10 counterexample: the zero-size view at data pointer 4 (extent range
`[4,4)`) against an 8-byte array spanning `[0,8)`: `_arrays_overlap`
reports overlap, and with a non-positive stride on the zero-size
destination `PyArray_MoveInto` does NOT take the direct path. -/
theorem zero_size_overlap_counterexample :
    _arrays_overlap ⟨4, [0], [1], 1⟩ ⟨0, [8], [1], 1⟩ = true ∧
    PyArray_MoveInto_usesDirect ⟨4, [0], [-1], 1⟩ ⟨0, [8], [1], 1⟩ = false := by
  decide


/- ### PyArray_NewFromDescr, per-axis size check (ctors.c:1190-1216) -/

/-- The `for (i = 0; i < nd; i++)` loop over the requested extents in
`PyArray_NewFromDescr`: zero extents are skipped, a negative extent fails,
an extent above the running bound `largest` fails, and an accepted extent
multiplies the running size and divides the running bound. -/
def newFromDescr_dimLoop : List ℤ → ℤ → ℤ → Except PyError (ℤ × ℤ)
  | [], size, largest => .ok (size, largest)
  | dim :: rest, size, largest =>
    if dim = 0 then newFromDescr_dimLoop rest size largest
    else if dim < 0 then .error ⟨.ValueError, "negative dimensions are not allowed"⟩
    else if largest < dim then .error ⟨.ValueError, "array is too big."⟩
    else newFromDescr_dimLoop rest (size * dim) (largest / dim)

/-- Outcome of the size check: the computed element count on success, the
raised error on failure, together with whether the failure path executed
`Py_DECREF(descr)` (the constructor consumes the descriptor reference on
every failure and returns no array). -/
structure DimCheckResult where
  outcome : Except PyError ℤ
  descrReleased : Bool

/-- The dimension/overflow portion of `PyArray_NewFromDescr`
(ctors.c:1190-1216), for a non-subarray descriptor of element size
`elsize`: `size = 1`, `largest = NPY_MAX_INTP / elsize`, then the per-axis
loop; each failing branch releases the descriptor and returns NULL. -/
def PyArray_NewFromDescr_dimCheck (elsize : ℤ) (dims : List ℤ) : DimCheckResult :=
  match newFromDescr_dimLoop dims 1 (NPY_MAX_INTP / elsize) with
  | .ok sl => ⟨.ok sl.1, false⟩
  | .error e => ⟨.error e, true⟩

/-- The product of the nonzero extents (zero extents contribute nothing,
matching the `continue` in the loop). -/
def prodNonzero (dims : List ℤ) : ℤ :=
  (dims.filter (fun d => !(d = 0 : Bool))).prod

/-- A zero extent is skipped by the loop. -/
theorem dimLoop_zero_step (rest : List ℤ) (size largest : ℤ) :
    newFromDescr_dimLoop (0 :: rest) size largest = newFromDescr_dimLoop rest size largest := by
  simp [newFromDescr_dimLoop]

/-- A negative extent fails with the InvalidArgument message. -/
theorem dimLoop_neg_step (d : ℤ) (rest : List ℤ) (size largest : ℤ) (h : d < 0) :
    newFromDescr_dimLoop (d :: rest) size largest =
      .error ⟨.ValueError, "negative dimensions are not allowed"⟩ := by
  unfold newFromDescr_dimLoop
  rw [if_neg (by omega), if_pos h]

/-- A positive extent above the running bound fails with the ArrayTooBig
message. -/
theorem dimLoop_big_step (d : ℤ) (rest : List ℤ) (size largest : ℤ)
    (h1 : 0 < d) (h2 : largest < d) :
    newFromDescr_dimLoop (d :: rest) size largest =
      .error ⟨.ValueError, "array is too big."⟩ := by
  unfold newFromDescr_dimLoop
  rw [if_neg (by omega), if_neg (by omega), if_pos h2]

/-- An accepted positive extent multiplies the running size and divides
the running bound. -/
theorem dimLoop_accept_step (d : ℤ) (rest : List ℤ) (size largest : ℤ)
    (h1 : 0 < d) (h2 : d ≤ largest) :
    newFromDescr_dimLoop (d :: rest) size largest =
      newFromDescr_dimLoop rest (size * d) (largest / d) := by
  conv_lhs => unfold newFromDescr_dimLoop
  rw [if_neg (by omega), if_neg (by omega), if_neg (by omega)]

/-- On success the loop multiplies the incoming size by every accepted
(nonzero) extent. -/
theorem dimLoop_ok_val (dims : List ℤ) (size largest sz lg : ℤ)
    (h : newFromDescr_dimLoop dims size largest = .ok (sz, lg)) :
    sz = size * prodNonzero dims := by
  induction dims generalizing size largest with
  | nil =>
    simp only [newFromDescr_dimLoop, Except.ok.injEq, Prod.mk.injEq] at h
    simp [prodNonzero, ← h.1]
  | cons d rest ih =>
    by_cases hd : d = 0
    · subst hd
      rw [dimLoop_zero_step] at h
      rw [ih _ _ h]
      simp [prodNonzero]
    · by_cases hneg : d < 0
      · rw [dimLoop_neg_step _ _ _ _ hneg] at h; cases h
      · by_cases hbig : largest < d
        · rw [dimLoop_big_step _ _ _ _ (by omega) hbig] at h; cases h
        · rw [dimLoop_accept_step _ _ _ _ (by omega) (by omega)] at h
          rw [ih _ _ h]
          simp only [prodNonzero, List.filter_cons]
          rw [if_pos (by simpa using hd)]
          rw [List.prod_cons]
          ring

/-- The invariant-based characterisation of the loop: with a running bound
`largest` that decides `m * x ≤ NPY_MAX_INTP` for positive `x` (and
`m ≤ NPY_MAX_INTP` itself), the loop succeeds iff every extent is
non-negative and `m` times the product of the nonzero extents stays within
`NPY_MAX_INTP`. -/
theorem dimLoop_ok_iff (dims : List ℤ) (size largest m : ℤ) (hm : 0 < m)
    (hM : m ≤ NPY_MAX_INTP)
    (hinv : ∀ x : ℤ, 0 < x → (x ≤ largest ↔ m * x ≤ NPY_MAX_INTP)) :
    (∃ r, newFromDescr_dimLoop dims size largest = .ok r) ↔
      ((∀ d ∈ dims, 0 ≤ d) ∧ m * prodNonzero dims ≤ NPY_MAX_INTP) := by
  induction dims generalizing size largest m with
  | nil =>
    simp [newFromDescr_dimLoop, prodNonzero, hM]
  | cons d rest ih =>
    by_cases hd : d = 0
    · subst hd
      rw [dimLoop_zero_step]
      rw [ih size largest m hm hM hinv]
      constructor
      · rintro ⟨h1, h2⟩
        refine ⟨?_, ?_⟩
        · intro x hx
          rcases List.mem_cons.mp hx with h | h
          · omega
          · exact h1 x h
        · simpa [prodNonzero] using h2
      · rintro ⟨h1, h2⟩
        refine ⟨fun x hx => h1 x (List.mem_cons_of_mem _ hx), ?_⟩
        simpa [prodNonzero] using h2
    · by_cases hneg : d < 0
      · rw [dimLoop_neg_step _ _ _ _ hneg]
        constructor
        · rintro ⟨r, hr⟩; cases hr
        · rintro ⟨h1, _⟩
          exact absurd (h1 d (List.mem_cons_self d rest)) (by omega)
      · have hdpos : 0 < d := by omega
        have hprodsplit : prodNonzero (d :: rest) = d * prodNonzero rest := by
          simp only [prodNonzero, List.filter_cons]
          rw [if_pos (by simpa using hd), List.prod_cons]
        by_cases hbig : largest < d
        · rw [dimLoop_big_step _ _ _ _ hdpos hbig]
          constructor
          · rintro ⟨r, hr⟩; cases hr
          · rintro ⟨h1, h2⟩
            have htail : 1 ≤ prodNonzero rest := by
              have hpos : 0 < prodNonzero rest := by
                refine List.prod_pos ?_
                intro x hx
                have hx1 := List.of_mem_filter hx
                have hx2 := List.mem_of_mem_filter hx
                have := h1 x (List.mem_cons_of_mem _ hx2)
                simp only [Bool.not_eq_true', decide_eq_false_iff_not] at hx1
                omega
              omega
            have hmd : m * d ≤ NPY_MAX_INTP := by
              calc m * d = m * d * 1 := by ring
                _ ≤ m * d * prodNonzero rest :=
                    mul_le_mul_of_nonneg_left htail (by positivity)
                _ = m * prodNonzero (d :: rest) := by rw [hprodsplit]; ring
                _ ≤ NPY_MAX_INTP := h2
            have := (hinv d hdpos).mpr hmd
            omega
        · rw [dimLoop_accept_step _ _ _ _ hdpos (by omega)]
          have hmd : m * d ≤ NPY_MAX_INTP := (hinv d hdpos).mp (by omega)
          have hinv2 : ∀ x : ℤ, 0 < x → (x ≤ largest / d ↔ (m * d) * x ≤ NPY_MAX_INTP) := by
            intro x hx
            rw [Int.le_ediv_iff_mul_le hdpos]
            rw [hinv (x * d) (by positivity)]
            rw [show m * (x * d) = (m * d) * x from by ring]
          rw [ih (size * d) (largest / d) (m * d) (by positivity) hmd hinv2]
          rw [hprodsplit]
          constructor
          · rintro ⟨h1, h2⟩
            constructor
            · intro x hx
              rcases List.mem_cons.mp hx with h | h
              · omega
              · exact h1 x h
            · calc m * (d * prodNonzero rest) = (m * d) * prodNonzero rest := by ring
                _ ≤ NPY_MAX_INTP := h2
          · rintro ⟨h1, h2⟩
            refine ⟨fun x hx => h1 x (List.mem_cons_of_mem _ hx), ?_⟩
            calc (m * d) * prodNonzero rest = m * (d * prodNonzero rest) := by ring
              _ ≤ NPY_MAX_INTP := h2

/-- C2: the per-axis size check of the canonical constructor.  The loop
skips zero extents; fails a negative extent with the InvalidArgument
message "negative dimensions are not allowed"; compares each positive
extent against the running bound initialised to `NPY_MAX_INTP / elsize`,
failing with the ArrayTooBig message "array is too big." when the extent
exceeds it, and otherwise divides the bound down by the accepted extent;
every failure releases the descriptor reference and returns no array.  In
addition, for `0 < elsize ≤ NPY_MAX_INTP` the whole check succeeds exactly
when all extents are non-negative and `elsize` times the product of the
nonzero extents stays within `NPY_MAX_INTP`, in which case the computed
element count is that product. -/
theorem new_from_descr_size_check :
    (∀ (rest : List ℤ) (size largest : ℤ),
      newFromDescr_dimLoop (0 :: rest) size largest =
        newFromDescr_dimLoop rest size largest) ∧
    (∀ (d : ℤ) (rest : List ℤ) (size largest : ℤ), d < 0 →
      newFromDescr_dimLoop (d :: rest) size largest =
        .error ⟨.ValueError, "negative dimensions are not allowed"⟩) ∧
    (∀ (d : ℤ) (rest : List ℤ) (size largest : ℤ), 0 < d → largest < d →
      newFromDescr_dimLoop (d :: rest) size largest =
        .error ⟨.ValueError, "array is too big."⟩) ∧
    (∀ (d : ℤ) (rest : List ℤ) (size largest : ℤ), 0 < d → d ≤ largest →
      newFromDescr_dimLoop (d :: rest) size largest =
        newFromDescr_dimLoop rest (size * d) (largest / d)) ∧
    (∀ (elsize : ℤ) (dims : List ℤ) (e : PyError),
      (PyArray_NewFromDescr_dimCheck elsize dims).outcome = .error e →
      (PyArray_NewFromDescr_dimCheck elsize dims).descrReleased = true) ∧
    (∀ (elsize : ℤ) (dims : List ℤ), 0 < elsize → elsize ≤ NPY_MAX_INTP →
      ((∃ sz, (PyArray_NewFromDescr_dimCheck elsize dims).outcome = .ok sz) ↔
        ((∀ d ∈ dims, 0 ≤ d) ∧ elsize * prodNonzero dims ≤ NPY_MAX_INTP)) ∧
      (∀ sz, (PyArray_NewFromDescr_dimCheck elsize dims).outcome = .ok sz →
        sz = prodNonzero dims)) := by
  refine ⟨dimLoop_zero_step, dimLoop_neg_step, dimLoop_big_step, dimLoop_accept_step, ?_, ?_⟩
  · intro elsize dims e h
    unfold PyArray_NewFromDescr_dimCheck at h ⊢
    cases hloop : newFromDescr_dimLoop dims 1 (NPY_MAX_INTP / elsize) with
    | ok sl => rw [hloop] at h; simp at h
    | error e2 => rfl
  · intro elsize dims hpos hle
    have hinv : ∀ x : ℤ, 0 < x →
        (x ≤ NPY_MAX_INTP / elsize ↔ elsize * x ≤ NPY_MAX_INTP) := by
      intro x hx
      rw [Int.le_ediv_iff_mul_le hpos]
      rw [show x * elsize = elsize * x from by ring]
    have hiff := dimLoop_ok_iff dims 1 (NPY_MAX_INTP / elsize) elsize hpos hle hinv
    constructor
    · rw [← hiff]
      unfold PyArray_NewFromDescr_dimCheck
      cases hloop : newFromDescr_dimLoop dims 1 (NPY_MAX_INTP / elsize) with
      | ok sl =>
        constructor
        · intro _; exact ⟨sl, rfl⟩
        · intro _; exact ⟨sl.1, rfl⟩
      | error e2 =>
        constructor
        · rintro ⟨sz, hsz⟩; cases hsz
        · rintro ⟨r, hr⟩; cases hr
    · intro sz hsz
      unfold PyArray_NewFromDescr_dimCheck at hsz
      cases hloop : newFromDescr_dimLoop dims 1 (NPY_MAX_INTP / elsize) with
      | ok sl =>
        rw [hloop] at hsz
        have hval := dimLoop_ok_val dims 1 (NPY_MAX_INTP / elsize) sl.1 sl.2 (by rw [hloop])
        have hinj : sl.1 = sz := by injection hsz
        rw [← hinj]
        simpa using hval
      | error e2 =>
        rw [hloop] at hsz
        cases hsz

/-- Witness for the C2 theorem: element size 4 with shape `[2,3]` passes
the check and computes 6 elements. -/
theorem new_from_descr_size_check_witness :
    ∃ sz, (PyArray_NewFromDescr_dimCheck 4 [2, 3]).outcome = .ok sz ∧
      sz = prodNonzero [2, 3] := by
  obtain ⟨h1, h2⟩ := new_from_descr_size_check.2.2.2.2.2 4 [2, 3]
    (by norm_num) (by decide)
  obtain ⟨sz, hsz⟩ := h1.mpr ⟨by decide, by decide⟩
  exact ⟨sz, hsz, h2 sz hsz⟩

/- ### discover_dimensions (ctors.c:983-1036) -/

/-- Nested sequence-like input values: scalars (no length) and nested
sequences.  Existing-array operands (the `PyArray_Check` branch) are not
modelled; the claims under study concern plain nested sequences. -/
inductive Seq where
  | leaf : ℤ → Seq
  | node : List Seq → Seq

/-- The child loop of `discover_dimensions` (ctors.c:1013-1033),
parameterised by the recursive call `f` on one child: recurse into the
child writing `d+1`, fail when the strict check is on and the tracked
extent `n_lower` is nonzero and differs from the child's reported extent
`d[1]`, and update `n_lower` by `if (d[1] > n_lower) n_lower = d[1]`. -/
def dimsGo (f : Seq → List ℤ → Except PyError (List ℤ)) (check : Bool) :
    List Seq → ℤ → List ℤ → Except PyError (ℤ × List ℤ)
  | [], nl, d => .ok (nl, d)
  | e :: rest, nl, d =>
    match f e (d.drop 1) with
    | .error er => .error er
    | .ok tail =>
      let d2 := d.take 1 ++ tail
      let d1 := d2.getD 1 0
      if check = true ∧ nl ≠ 0 ∧ nl ≠ d1 then
        .error ⟨.ValueError, "inconsistent shape in sequence"⟩
      else dimsGo f check rest (if nl < d1 then d1 else nl) d2

/-- Model of `discover_dimensions(s, nd, d, check_it)` (ctors.c:983-1036) for plain
nested sequences: record the length at `d[0]`; for `nd <= 1` stop; else
loop over the children (writing into `d+1`), then store the tracked
`n_lower` into `d[1]`.  Taking the length of a scalar fails. -/
def discover_dimensions : ℕ → Seq → List ℤ → Bool → Except PyError (List ℤ)
  | _, .leaf _, _, _ => .error ⟨.TypeError, "len() of unsized object"⟩
  | 0, .node cs, d, _ => .ok (d.set 0 (cs.length : ℤ))
  | 1, .node cs, d, _ => .ok (d.set 0 (cs.length : ℤ))
  | nd + 2, .node cs, d, check =>
    match dimsGo (fun e d2 => discover_dimensions (nd + 1) e d2 check) check
        cs 0 (d.set 0 (cs.length : ℤ)) with
    | .error e => .error e
    | .ok nld => .ok (nld.2.set 1 nld.1)

/-- The running-maximum fold performed on the children's reported extents
(`n_lower` starts at 0 and is raised whenever `d[1] > n_lower`). -/
def foldMax (ls : List ℤ) : ℤ :=
  ls.foldl (fun nl x => if nl < x then x else nl) 0

/-- Evaluation of the child loop when all children are plain sequences,
one nesting level remains, and the strict check is off: the loop never
fails and folds the running maximum over the children's lengths. -/
theorem dimsGo_false_nodes (cs : List (List Seq)) (nl x y : ℤ) :
    ∃ y2, dimsGo (fun e d2 => discover_dimensions 1 e d2 false) false
        (cs.map .node) nl [x, y] =
      .ok (cs.foldl (fun acc c => if acc < (c.length : ℤ) then (c.length : ℤ) else acc) nl,
        [x, y2]) := by
  induction cs generalizing nl y with
  | nil => exact ⟨y, rfl⟩
  | cons c rest ih =>
    simp only [List.map_cons, dimsGo, discover_dimensions, List.drop_succ_cons,
      List.drop_zero, List.set_cons_zero, List.take_succ_cons, List.take_zero,
      List.cons_append, List.nil_append, List.getD_cons_succ, List.getD_cons_zero,
      Bool.false_eq_true, false_and, if_false, List.foldl_cons]
    exact ih (if nl < (c.length : ℤ) then (c.length : ℤ) else nl) (c.length : ℤ)

/-- C3 (amended): without the strict consistency flag,
`discover_dimensions` records as the next axis's extent the MAXIMUM of the
children's lengths (the `n_lower` accumulator starts at 0 and is raised by
`if (d[1] > n_lower)`), not the minimum; with the strict flag, a length
mismatch between the first child (of nonzero length) and the second child
raises the shape-mismatch failure "inconsistent shape in sequence". -/
theorem discover_dimensions_max_and_strict :
    (∀ (css : List (List Seq)) (x y : ℤ),
      discover_dimensions 2 (.node (css.map .node)) [x, y] false =
        .ok [(css.length : ℤ), foldMax (css.map (fun c => (c.length : ℤ)))]) ∧
    (∀ (c1 c2 : List Seq) (x y : ℤ), c1 ≠ [] → c1.length ≠ c2.length →
      discover_dimensions 2 (.node [.node c1, .node c2]) [x, y] true =
        .error ⟨.ValueError, "inconsistent shape in sequence"⟩) := by
  constructor
  · intro css x y
    have hgo := dimsGo_false_nodes css 0 ((css.map Seq.node).length : ℤ) y
    obtain ⟨y2, hy2⟩ := hgo
    simp only [discover_dimensions, List.set_cons_zero]
    rw [hy2]
    simp only [List.length_map, List.set]
    rw [foldMax, List.foldl_map]
  · intro c1 c2 x y h1 h2
    have hlen1 : (0 : ℤ) < (c1.length : ℤ) := by
      have : c1.length ≠ 0 := fun h => h1 (List.eq_nil_of_length_eq_zero h)
      omega
    simp only [discover_dimensions, dimsGo, List.set_cons_zero, List.drop_succ_cons,
      List.drop_zero, List.take_succ_cons, List.take_zero, List.cons_append,
      List.nil_append, List.getD_cons_succ, List.getD_cons_zero]
    rw [if_neg (by simp), if_pos hlen1]
    rw [if_pos ?_]
    refine ⟨trivial, by omega, ?_⟩
    intro h
    exact h2 (by exact_mod_cast h)

/-- Witness for the C3 theorem: the strict clause applied to children of
lengths 1 and 0. -/
theorem discover_dimensions_max_and_strict_witness :
    discover_dimensions 2 (.node [.node [.leaf 0], .node []]) [0, 0] true =
      .error ⟨.ValueError, "inconsistent shape in sequence"⟩ :=
  discover_dimensions_max_and_strict.2 [.leaf 0] [] 0 0 (by simp) (by simp)

/-- C3 counterexample: for children of lengths 2 and 3 with the strict
check off, the code records extent 3 (the maximum), not the minimum 2 that
the claim prescribes. -/
theorem discover_dimensions_min_counterexample :
    discover_dimensions 2
      (.node [.node [.leaf 0, .leaf 0], .node [.leaf 0, .leaf 0, .leaf 0]]) [0, 0] false =
      .ok [2, 3] ∧ ([2, 3] : List ℤ) ≠ [2, 2] := by
  exact ⟨rfl, by decide⟩

/- ### arange (ctors.c:2738-2818, PyArray_ArangeObj ctors.c:2823-3026) -/

/-- Model of `_safe_ceil_to_intp(value)` (ctors.c:2738-2749): exact ceiling with a
range check against the intp bounds; `none` models the failing return
value -1 (in which case the out-parameter is never written). -/
def _safe_ceil_to_intp (value : ℚ) : Option ℤ :=
  let ivalue := ⌈value⌉
  if ivalue < NPY_MIN_INTP ∨ NPY_MAX_INTP < ivalue then none else some ivalue

/-- Modelled from the spec: the descriptor registry's `fill` primitive —
external to this repository's source — extrapolates the arithmetic
progression natively from the first two buffer elements, giving
`buf[i] = start + i * step`. -/
def rangeFill (start step : ℚ) (n : ℕ) : List ℚ :=
  (List.range n).map (fun (i : ℕ) => start + (i : ℚ) * step)

/-- The buffer-construction phase of `PyArray_Arange` once a length is in
hand (ctors.c:2769-2813): a non-positive length gives a valid zero-length
array; element 0 is `start`; element 1 is `start + step` computed
directly; a length above 2 runs the descriptor fill, failing with
"no fill-function for data-type." when the type has none.  `pending`
carries an error already sitting in the thread state when this phase
starts: the lengths 0, 1 and 2 return the array without ever checking it,
but the post-fill `if (PyErr_Occurred()) goto fail` (ctors.c:2810-2812)
trips on it and discards the array. -/
def arangeBuild (start step : ℚ) (length : ℤ) (hasFill : Bool)
    (pending : Option PyError) : Except PyError (List ℚ) :=
  if length ≤ 0 then .ok []
  else if length = 1 then .ok [start]
  else if length = 2 then .ok [start, start + step]
  else if hasFill then
    match pending with
    | some e => .error e
    | none => .ok (rangeFill start step length.toNat)
  else .error ⟨.ValueError, "no fill-function for data-type."⟩

/-- What `PyArray_Arange` hands back: the error indicator left in the
thread state and the returned array (`none` models returning NULL). -/
structure ArangeOutcome where
  errorSet : Option PyError
  result : Option (List ℚ)

/-- Model of `PyArray_Arange(start, stop, step, type_num)` (ctors.c:2755-2818).
When `_safe_ceil_to_intp` fails, the code sets the OverflowError but is
missing the early return: it falls through into the length tests with the
local `length` still uninitialised — modelled by the `junkLength`
parameter standing for that indeterminate stack value — and with the
OverflowError pending through the whole build phase. -/
def PyArray_Arange (start stop step : ℚ) (hasFill : Bool) (junkLength : ℤ) : ArangeOutcome :=
  match _safe_ceil_to_intp ((stop - start) / step) with
  | some length =>
    match arangeBuild start step length hasFill none with
    | .ok xs => ⟨none, some xs⟩
    | .error e => ⟨some e, none⟩
  | none =>
    let ov : PyError := ⟨.OverflowError, "arange: overflow while computing length"⟩
    match arangeBuild start step junkLength hasFill (some ov) with
    | .ok xs => ⟨some ov, some xs⟩
    | .error e => ⟨some e, none⟩

/-- Model of `PyArray_ArangeObj` (ctors.c:2897-3026) for a native-byte-order
descriptor (the byte-swapped finish is not modelled): `_calc_length`
computes the same ceiling, and an OverflowError from it is converted to
ValueError "Maximum allowed size exceeded" with no array returned
(ctors.c:2946-2953); otherwise the same build phase runs. -/
def PyArray_ArangeObj (start stop step : ℚ) (hasFill : Bool) : Except PyError (List ℚ) :=
  match _safe_ceil_to_intp ((stop - start) / step) with
  | none => .error ⟨.ValueError, "Maximum allowed size exceeded"⟩
  | some length => arangeBuild start step length hasFill none

/-- C4: with `start = 0, stop = 2^64, step = 1` the mathematical length
2^64 exceeds the intp range, so `_safe_ceil_to_intp` fails and the
OverflowError is set — but `PyArray_Arange` is missing the early return:
it falls through into the length tests with `length` uninitialised and,
when that indeterminate value is at most 2, still returns an array (the
empty array for a non-positive value, a one- or two-element array
otherwise — those paths execute `return range` before any error check)
instead of returning NULL.  Only a junk value above 2 reaches the
post-fill `PyErr_Occurred()` check (ctors.c:2810-2812), which trips on
the pending OverflowError and returns NULL.  `PyArray_ArangeObj` does
return no array, though it rewraps the overflow as ValueError
"Maximum allowed size exceeded". -/
theorem arange_overflow_returns_array :
    _safe_ceil_to_intp ((2 ^ 64 - 0) / 1) = none ∧
    (∀ junk : ℤ, (PyArray_Arange 0 (2 ^ 64) 1 true junk).errorSet ≠ none) ∧
    PyArray_Arange 0 (2 ^ 64) 1 true 0 =
      ⟨some ⟨.OverflowError, "arange: overflow while computing length"⟩, some []⟩ ∧
    PyArray_Arange 0 (2 ^ 64) 1 true 1 =
      ⟨some ⟨.OverflowError, "arange: overflow while computing length"⟩, some [0]⟩ ∧
    PyArray_Arange 0 (2 ^ 64) 1 true 3 =
      ⟨some ⟨.OverflowError, "arange: overflow while computing length"⟩, none⟩ ∧
    PyArray_ArangeObj 0 (2 ^ 64) 1 true =
      .error ⟨.ValueError, "Maximum allowed size exceeded"⟩ := by
  have hceil : _safe_ceil_to_intp ((2 ^ 64 - 0) / 1) = none := by
    unfold _safe_ceil_to_intp
    rw [show ((2 ^ 64 - 0 : ℚ) / 1) = (((2 ^ 64 : ℤ)) : ℚ) from by norm_num,
      Int.ceil_intCast]
    norm_num [NPY_MAX_INTP, NPY_MIN_INTP]
  refine ⟨hceil, ?_, ?_, ?_, ?_, ?_⟩
  · intro junk
    simp only [PyArray_Arange, hceil]
    cases h : arangeBuild 0 1 junk true
        (some ⟨.OverflowError, "arange: overflow while computing length"⟩) <;>
      simp [h]
  · simp only [PyArray_Arange, hceil]
    have hb : arangeBuild 0 1 0 true
        (some ⟨.OverflowError, "arange: overflow while computing length"⟩) =
        .ok [] := by
      simp [arangeBuild]
    rw [hb]
  · simp only [PyArray_Arange, hceil]
    have hb : arangeBuild 0 1 1 true
        (some ⟨.OverflowError, "arange: overflow while computing length"⟩) =
        .ok [0] := by
      unfold arangeBuild
      rw [if_neg (by omega), if_pos rfl]
    rw [hb]
  · simp only [PyArray_Arange, hceil]
    have hb : arangeBuild 0 1 3 true
        (some ⟨.OverflowError, "arange: overflow while computing length"⟩) =
        .error ⟨.OverflowError, "arange: overflow while computing length"⟩ := by
      unfold arangeBuild
      rw [if_neg (by omega), if_neg (by omega), if_neg (by omega), if_pos rfl]
    rw [hb]
  · simp only [PyArray_ArangeObj, hceil]

/-- C5: value semantics of `PyArray_Arange` when the length computation
succeeds: a non-positive length (including a step sign mismatched with
the direction) yields a valid zero-length array rather than an error;
element 0 is `start`; element 1 is `start + step` computed directly; the
remaining elements continue the arithmetic progression; and a type
without fill capability fails with the InvalidArgument message
"no fill-function for data-type.".  Concretely, arange(0,5,1) gives
[0,1,2,3,4] and both arange(0,0,1) and arange(10,0,1) give the empty
array with no error. -/
theorem arange_value_semantics :
    (∀ (start stop step : ℚ) (hasFill : Bool) (junk len : ℤ),
      _safe_ceil_to_intp ((stop - start) / step) = some len →
      ((len ≤ 0 → PyArray_Arange start stop step hasFill junk = ⟨none, some []⟩) ∧
       (0 < len → (hasFill = true ∨ len ≤ 2) →
         ∃ xs, PyArray_Arange start stop step hasFill junk = ⟨none, some xs⟩ ∧
           xs.length = len.toNat ∧
           xs.get? 0 = some start ∧
           (2 ≤ len → xs.get? 1 = some (start + step)) ∧
           (∀ i : ℕ, i < len.toNat → xs.get? i = some (start + (i : ℚ) * step))) ∧
       (2 < len → hasFill = false →
         PyArray_Arange start stop step hasFill junk =
           ⟨some ⟨.ValueError, "no fill-function for data-type."⟩, none⟩))) ∧
    (PyArray_Arange 0 5 1 true 0).result = some [0, 1, 2, 3, 4] ∧
    PyArray_Arange 0 0 1 true 0 = ⟨none, some []⟩ ∧
    PyArray_Arange 10 0 1 true 0 = ⟨none, some []⟩ := by
  refine ⟨?_, ?_, ?_, ?_⟩
  · intro start stop step hasFill junk len h
    simp only [PyArray_Arange, h]
    refine ⟨?_, ?_, ?_⟩
    · intro hle
      have hb : arangeBuild start step len hasFill none = .ok [] := by
        unfold arangeBuild
        rw [if_pos hle]
      rw [hb]
    · intro hpos hor
      by_cases h1 : len = 1
      · have hb : arangeBuild start step len hasFill none = .ok [start] := by
          unfold arangeBuild
          rw [if_neg (by omega), if_pos h1]
        rw [hb]
        subst h1
        refine ⟨[start], rfl, rfl, rfl, ?_, ?_⟩
        · intro hh; exact absurd hh (by omega)
        · intro i hi
          have hi0 : i = 0 := by omega
          subst hi0
          norm_num
      · by_cases h2 : len = 2
        · have hb : arangeBuild start step len hasFill none = .ok [start, start + step] := by
            unfold arangeBuild
            rw [if_neg (by omega), if_neg h1, if_pos h2]
          rw [hb]
          subst h2
          refine ⟨[start, start + step], rfl, rfl, rfl, fun _ => rfl, ?_⟩
          intro i hi
          have hi01 : i = 0 ∨ i = 1 := by omega
          rcases hi01 with hi0 | hi1
          · subst hi0; norm_num
          · subst hi1; norm_num
        · have hf : hasFill = true := by
            rcases hor with hf | hle2
            · exact hf
            · omega
          have hb : arangeBuild start step len hasFill none =
              .ok (rangeFill start step len.toNat) := by
            unfold arangeBuild
            rw [if_neg (by omega), if_neg h1, if_neg h2, if_pos hf]
          rw [hb]
          have hgk : ∀ k : ℕ, k < len.toNat →
              (rangeFill start step len.toNat).get? k = some (start + (k : ℚ) * step) := by
            intro k hk
            simp only [rangeFill]
            rw [List.get?_map, List.get?_range hk]
            rfl
          refine ⟨rangeFill start step len.toNat, rfl, by simp [rangeFill], ?_, ?_, hgk⟩
          · rw [hgk 0 (by omega)]
            norm_num
          · intro hh
            rw [hgk 1 (by omega)]
            norm_num
    · intro hgt hf
      have hb : arangeBuild start step len hasFill none =
          .error ⟨.ValueError, "no fill-function for data-type."⟩ := by
        unfold arangeBuild
        rw [if_neg (by omega), if_neg (by omega), if_neg (by omega), hf,
          if_neg (by simp)]
      rw [hb]
  · have hceil : _safe_ceil_to_intp ((5 - 0) / 1) = some 5 := by
      unfold _safe_ceil_to_intp
      rw [show ((5 - 0 : ℚ) / 1) = (((5 : ℤ)) : ℚ) from by norm_num, Int.ceil_intCast]
      norm_num [NPY_MAX_INTP, NPY_MIN_INTP]
    simp only [PyArray_Arange, hceil]
    have hb : arangeBuild 0 1 5 true none = .ok [0, 1, 2, 3, 4] := by
      unfold arangeBuild
      rw [if_neg (by omega), if_neg (by omega), if_neg (by omega), if_pos rfl]
      simp only [rangeFill, show ((5 : ℤ)).toNat = 5 from rfl, List.range_succ,
        List.range_zero, List.map_append, List.map_cons, List.map_nil,
        List.nil_append, List.cons_append, Except.ok.injEq]
      norm_num
    rw [hb]
  · have hceil : _safe_ceil_to_intp ((0 - 0) / 1) = some 0 := by
      unfold _safe_ceil_to_intp
      rw [show ((0 - 0 : ℚ) / 1) = (((0 : ℤ)) : ℚ) from by norm_num, Int.ceil_intCast]
      norm_num [NPY_MAX_INTP, NPY_MIN_INTP]
    simp only [PyArray_Arange, hceil]
    have hb : arangeBuild 0 1 0 true none = .ok [] := by simp [arangeBuild]
    rw [hb]
  · have hceil : _safe_ceil_to_intp ((0 - 10) / 1) = some (-10) := by
      unfold _safe_ceil_to_intp
      rw [show ((0 - 10 : ℚ) / 1) = (((-10 : ℤ)) : ℚ) from by norm_num, Int.ceil_intCast]
      norm_num [NPY_MAX_INTP, NPY_MIN_INTP]
    simp only [PyArray_Arange, hceil]
    have hb : arangeBuild 10 1 (-10) true none = .ok [] := by
      unfold arangeBuild
      rw [if_pos (by omega)]
    rw [hb]

/-- Witness for the C5 theorem: arange(0,5,1) through the main clause. -/
theorem arange_value_semantics_witness :
    ∃ xs, PyArray_Arange 0 5 1 true 0 = ⟨none, some xs⟩ ∧
      xs.length = (5 : ℤ).toNat ∧ xs.get? 0 = some 0 ∧
      ((2 : ℤ) ≤ 5 → xs.get? 1 = some (0 + 1)) ∧
      (∀ i : ℕ, i < (5 : ℤ).toNat → xs.get? i = some (0 + (i : ℚ) * 1)) := by
  have hceil : _safe_ceil_to_intp ((5 - 0) / 1) = some 5 := by
    unfold _safe_ceil_to_intp
    rw [show ((5 - 0 : ℚ) / 1) = (((5 : ℤ)) : ℚ) from by norm_num, Int.ceil_intCast]
    norm_num [NPY_MAX_INTP, NPY_MIN_INTP]
  exact (arange_value_semantics.1 0 5 1 true 0 5 hceil).2.1 (by norm_num) (Or.inl rfl)

/- ### _array_fill_strides (ctors.c:3553-3586) -/

/-- The CONTIGUOUS / FORTRAN bits of the array flags word, as touched by
`_array_fill_strides`. -/
structure ArrFlags where
  contiguous : Bool
  fortran : Bool
deriving DecidableEq, Repr

/-- The C-order loop (ctors.c:3573-3576): walk the axes from last to
first, assigning the running product (`strides[i] = itemsize;
itemsize *= dims[i] ? dims[i] : 1`); returns the strides and the final
running product. -/
def fillStridesC : List ℕ → ℕ → List ℕ × ℕ
  | [], itemsize => ([], itemsize)
  | d :: rest, itemsize =>
    let p := fillStridesC rest itemsize
    (p.2 :: p.1, p.2 * (if d = 0 then 1 else d))

/-- The Fortran-order loop (ctors.c:3560-3563): walk the axes from first
to last with the same running product. -/
def fillStridesF : List ℕ → ℕ → List ℕ × ℕ
  | [], itemsize => ([], itemsize)
  | d :: rest, itemsize =>
    let p := fillStridesF rest (itemsize * (if d = 0 then 1 else d))
    (itemsize :: p.1, p.2)

/-- Model of `_array_fill_strides(strides, dims, nd, itemsize, inflag, objflags)`
(ctors.c:3553-3586): the Fortran walk is taken when the inflag has FORTRAN
set but not CONTIGUOUS; each branch sets its own order bit, clears the
opposite one for `nd > 1` and sets it for `nd <= 1`; the return value is
the accumulated byte size. -/
def _array_fill_strides (dims : List ℕ) (itemsize : ℕ)
    (inflagFortran inflagContiguous : Bool) (objflags : ArrFlags) :
    List ℕ × ℕ × ArrFlags :=
  let nd := dims.length
  if inflagFortran = true ∧ inflagContiguous = false then
    let p := fillStridesF dims itemsize
    let f1 := { objflags with fortran := true }
    let f2 := if 1 < nd then { f1 with contiguous := false }
              else { f1 with contiguous := true }
    (p.1, p.2, f2)
  else
    let p := fillStridesC dims itemsize
    let f1 := { objflags with contiguous := true }
    let f2 := if 1 < nd then { f1 with fortran := false }
              else { f1 with fortran := true }
    (p.1, p.2, f2)

/-- The product of the extents with each zero extent counted as 1
(`dims[i] ? dims[i] : 1`). -/
def prodOne (dims : List ℕ) : ℕ :=
  (dims.map (fun d => if d = 0 then 1 else d)).prod

/-- The final running product of the C-order walk. -/
theorem fillStridesC_size (dims : List ℕ) (e : ℕ) :
    (fillStridesC dims e).2 = e * prodOne dims := by
  induction dims with
  | nil => simp [fillStridesC, prodOne]
  | cons d rest ih =>
    simp only [fillStridesC, ih, prodOne, List.map_cons, List.prod_cons]
    ring

/-- The final running product of the Fortran-order walk. -/
theorem fillStridesF_size (dims : List ℕ) (e : ℕ) :
    (fillStridesF dims e).2 = e * prodOne dims := by
  induction dims generalizing e with
  | nil => simp [fillStridesF, prodOne]
  | cons d rest ih =>
    simp only [fillStridesF, ih, prodOne, List.map_cons, List.prod_cons]
    ring

/-- C-order stride formula: stride `i` is the element size times the
(zero-extents-as-1) product of the extents after axis `i`. -/
theorem fillStridesC_get (dims : List ℕ) (e : ℕ) (i : ℕ) (hi : i < dims.length) :
    (fillStridesC dims e).1.get? i = some (e * prodOne (dims.drop (i + 1))) := by
  induction dims generalizing i with
  | nil => simp at hi
  | cons d rest ih =>
    cases i with
    | zero =>
      simp only [fillStridesC, List.get?_cons_zero, List.drop_succ_cons, List.drop_zero]
      rw [fillStridesC_size]
    | succ j =>
      simp only [fillStridesC, List.get?_cons_succ, List.drop_succ_cons]
      exact ih j (by simpa using hi)

/-- Fortran-order stride formula: stride `i` is the element size times
the (zero-extents-as-1) product of the extents before axis `i`. -/
theorem fillStridesF_get (dims : List ℕ) (e : ℕ) (i : ℕ) (hi : i < dims.length) :
    (fillStridesF dims e).1.get? i = some (e * prodOne (dims.take i)) := by
  induction dims generalizing i e with
  | nil => simp at hi
  | cons d rest ih =>
    cases i with
    | zero =>
      simp [fillStridesF, prodOne]
    | succ j =>
      simp only [fillStridesF, List.get?_cons_succ, List.take_succ_cons]
      rw [ih (e * (if d = 0 then 1 else d)) j (by simpa using hi)]
      simp only [prodOne, List.map_cons, List.prod_cons, Option.some.injEq]
      ring

/-- C6: the stride-fill routine.  In the C branch (taken unless the inflag
has FORTRAN without CONTIGUOUS) stride `i` equals the element size times
the product of the later extents, walking last to first; in the Fortran
branch it is the product of the earlier extents, walking first to last;
zero extents count as 1 in the running product; and the resulting flags
have exactly one of CONTIGUOUS/FORTRAN set when `ndim > 1` and both set
when `ndim <= 1`, whatever flags came in. -/
theorem array_fill_strides_layout :
    ∀ (dims : List ℕ) (e : ℕ) (inF inC : Bool) (fl : ArrFlags),
      ((inF = true ∧ inC = false) →
        ∀ i : ℕ, i < dims.length →
          (_array_fill_strides dims e inF inC fl).1.get? i =
            some (e * prodOne (dims.take i))) ∧
      (¬ (inF = true ∧ inC = false) →
        ∀ i : ℕ, i < dims.length →
          (_array_fill_strides dims e inF inC fl).1.get? i =
            some (e * prodOne (dims.drop (i + 1)))) ∧
      (1 < dims.length →
        (_array_fill_strides dims e inF inC fl).2.2.contiguous ≠
          (_array_fill_strides dims e inF inC fl).2.2.fortran) ∧
      (dims.length ≤ 1 →
        (_array_fill_strides dims e inF inC fl).2.2.contiguous = true ∧
        (_array_fill_strides dims e inF inC fl).2.2.fortran = true) := by
  intro dims e inF inC fl
  refine ⟨?_, ?_, ?_, ?_⟩
  · intro hbr i hi
    unfold _array_fill_strides
    rw [if_pos hbr]
    exact fillStridesF_get dims e i hi
  · intro hbr i hi
    unfold _array_fill_strides
    rw [if_neg hbr]
    exact fillStridesC_get dims e i hi
  · intro hnd
    unfold _array_fill_strides
    by_cases hbr : inF = true ∧ inC = false
    · rw [if_pos hbr]
      simp only [if_pos hnd]
      simp
    · rw [if_neg hbr]
      simp only [if_pos hnd]
      simp
  · intro hnd
    have hnd2 : ¬ 1 < dims.length := by omega
    unfold _array_fill_strides
    by_cases hbr : inF = true ∧ inC = false
    · rw [if_pos hbr]
      simp only [if_neg hnd2]
      simp
    · rw [if_neg hbr]
      simp only [if_neg hnd2]
      simp

/-- Witness for the C6 theorem: shape `[2,3]`, element size 8, C order. -/
theorem array_fill_strides_layout_witness :
    (_array_fill_strides [2, 3] 8 false false ⟨false, false⟩).1.get? 0 =
      some (8 * prodOne ([2, 3].drop 1)) ∧
    (_array_fill_strides [2, 3] 8 false false ⟨false, false⟩).2.2.contiguous ≠
      (_array_fill_strides [2, 3] 8 false false ⟨false, false⟩).2.2.fortran := by
  have h := array_fill_strides_layout [2, 3] 8 false false ⟨false, false⟩
  exact ⟨h.2.1 (by simp) 0 (by norm_num), h.2.2.1 (by norm_num)⟩

/-- C7 (amended): the byte size returned by `_array_fill_strides` equals
`elsize` times the product of the extents with each zero extent counted
as 1; in particular it equals `elsize * product(shape)` whenever every
extent is positive, but for a shape containing a zero extent it is
positive rather than 0. -/
theorem array_fill_strides_size (dims : List ℕ) (e : ℕ)
    (inF inC : Bool) (fl : ArrFlags) :
    (_array_fill_strides dims e inF inC fl).2.1 = e * prodOne dims ∧
    ((∀ d ∈ dims, 0 < d) →
      (_array_fill_strides dims e inF inC fl).2.1 = e * dims.prod) := by
  have hsz : (_array_fill_strides dims e inF inC fl).2.1 = e * prodOne dims := by
    unfold _array_fill_strides
    by_cases hbr : inF = true ∧ inC = false
    · rw [if_pos hbr]
      exact fillStridesF_size dims e
    · rw [if_neg hbr]
      exact fillStridesC_size dims e
  refine ⟨hsz, ?_⟩
  intro hpos
  rw [hsz]
  have : prodOne dims = dims.prod := by
    unfold prodOne
    have hmap : dims.map (fun d => if d = 0 then 1 else d) = dims.map id := by
      refine List.map_congr_left ?_
      intro d hd
      have := hpos d hd
      simp only [id]
      rw [if_neg (by omega)]
    rw [hmap, List.map_id]
  rw [this]

/-- Witness for the C7 theorem at shape `[2,3]`, element size 8. -/
theorem array_fill_strides_size_witness :
    (_array_fill_strides [2, 3] 8 false false ⟨false, false⟩).2.1 =
      8 * ([2, 3] : List ℕ).prod :=
  (array_fill_strides_size [2, 3] 8 false false ⟨false, false⟩).2 (by decide)

/-- C7 counterexample: for shape `[0]` with element size 4 the routine
returns 4 bytes (`elsize`, since the zero extent counts as 1), not
`elsize * product(shape) = 0` as the claim states for zero extents. -/
theorem array_fill_strides_size_counterexample :
    (_array_fill_strides [0] 4 false false ⟨false, false⟩).2.1 = 4 ∧
    (_array_fill_strides [0] 4 false false ⟨false, false⟩).2.1 ≠
      4 * ([0] : List ℕ).prod := by
  decide
